import Mathlib

/-!
Verification of the Kui terminal block state machine
(src/plugins/plugin-client-common/src/components/Views/Terminal/ScrollableTerminal.tsx).

The block sequence of one terminal tab is modelled as a `List BlockModel`.
Each React `setState` updater in the source is a pure function from the
current block list to the new block list; handlers that also emit
`console.error` diagnostics return the list of emitted messages alongside.
-/

namespace Kui

/-- A command response, as seen by the terminal state machine.  The machine
only inspects whether the response is watchable (`isWatchable(response)` in
the source); the payload is otherwise opaque, represented by a numeric tag. -/
structure Response where
  watchable : Bool
  tag : Nat
deriving DecidableEq, Repr

/-- Embeds `isWatchable` from the core package: true when the response is a
watch response. -/
def isWatchable (r : Response) : Bool :=
  r.watchable

/-- The value stored in a Finished block: either the literal `true`
(meaning "ran OK, view elsewhere") or the structured scalar response. -/
inductive ResponseOrOk where
  | ok : ResponseOrOk
  | response (r : Response) : ResponseOrOk
deriving DecidableEq, Repr

/-- Modelled from the spec: the BlockModel module is not under src/ (only its
callers are).  Per spec section 4.1 it is a tagged variant with pure
constructors `Active(capturedText?)`, `Processing(previousBlock, commandText,
execId)`, `Finished(previousBlock, responseOrOk, cancelled)` and
`Cancelled(previousBlock)`; each transition constructor retains the previous
block.  `Active ""` embeds the zero-argument call `Active()`. -/
inductive BlockModel where
  | Active (capturedText : String) : BlockModel
  | Processing (prev : BlockModel) (command : String) (execUUID : String) : BlockModel
  | Finished (prev : BlockModel) (responseOrOk : ResponseOrOk) (cancelled : Bool) : BlockModel
  | Cancelled (prev : BlockModel) : BlockModel
deriving DecidableEq, Repr

/-- Modelled from the spec: the `isActive` predicate of the BlockModel
module (spec section 4.1): true exactly on Active blocks. -/
def isActive : BlockModel → Bool
  | BlockModel.Active _ => true
  | _ => false

/-- Modelled from the spec: the `isProcessing` predicate of the BlockModel
module (spec section 4.1): true exactly on Processing blocks. -/
def isProcessing : BlockModel → Bool
  | BlockModel.Processing _ _ _ => true
  | _ => false

/-- The `execUUID` field access on a block: only Processing blocks carry an
execution identifier (`undefined`, i.e. `none`, on the others). -/
def execUUIDOf : BlockModel → Option String
  | BlockModel.Processing _ _ u => some u
  | _ => none

/-- The findIndex predicate of onExecEnd:
`_ => isProcessing(_) && _.execUUID === execUUID`. -/
def matchesExec (execUUID : String) (b : BlockModel) : Bool :=
  isProcessing b && execUUIDOf b == some execUUID

/-- JavaScript `Array.prototype.findIndex`, with `none` in place of `-1`
(the source immediately tests `inProcessIdx >= 0`, which corresponds to
`isSome` here). -/
def findIndex (p : BlockModel → Bool) : List BlockModel → Option Nat
  | [] => none
  | b :: bs => if p b then some 0 else (findIndex p bs).map (· + 1)

/-- The `showInTerminal` policy computed by onExecEnd: either the watch pane
feature is disabled, or the response is not watchable, or it is watchable but
an evaluator-level or exec-level override forces viewing in the terminal. -/
def showInTerminal (enableWatchPane : Bool) (response : Response)
    (evaluatorAlwaysViewIn execAlwaysViewIn : Option String) : Bool :=
  !enableWatchPane || !isWatchable response ||
    (isWatchable response &&
      (evaluatorAlwaysViewIn == some "Terminal" || execAlwaysViewIn == some "Terminal"))

/-- onExecStart state updater.  With `echo` false the handler returns before
touching state.  Otherwise the last block is replaced in place by
`Processing(lastBlock, command, execUUID)`:
`blocks.slice(0, idx).concat([Processing(blocks[idx], command, execUUID)])`
with `idx = blocks.length - 1`.  The source also closes the sidecar in popup
mode, a UI side effect that does not touch the block list and is not
modelled.  The `getD` default stands for the out-of-bounds `undefined` read
the source would perform on an empty list, which is unreachable. -/
def onExecStart (command execUUID : String) (echo : Bool)
    (blocks : List BlockModel) : List BlockModel :=
  if echo == false then blocks
  else
    let idx := blocks.length - 1
    blocks.take idx ++ [BlockModel.Processing (blocks.getD idx (BlockModel.Active "")) command execUUID]

/-- onExecEnd state updater.  Returns the new block list and the list of
`console.error` argument strings emitted.  With `echo` false the handler
returns before touching state.  Otherwise it searches for a Processing block
matching `execUUID`; if found, that block is replaced by a Finished block and
a fresh Active block is appended; if not found and `cancelled`, the last
block is replaced by Cancelled and a fresh Active block is appended; if not
found and not cancelled, the state is unchanged and a diagnostic is logged.
In the found branch the source re-checks `isProcessing(inProcess)` (a
TypeScript narrowing step) and logs a diagnostic without a state change when
it fails.  The exception behaviour of the found branch (its try/catch) is
modelled separately by `onExecEndExc`. -/
def onExecEnd (enableWatchPane : Bool) (response : Response)
    (cancelled echo : Bool) (evaluatorAlwaysViewIn execAlwaysViewIn : Option String)
    (execUUID responseType : String)
    (blocks : List BlockModel) : List BlockModel × List String :=
  if echo == false then (blocks, [])
  else
    let showIT := showInTerminal enableWatchPane response evaluatorAlwaysViewIn execAlwaysViewIn
    match findIndex (matchesExec execUUID) blocks with
    | some inProcessIdx =>
      let inProcess := blocks.getD inProcessIdx (BlockModel.Active "")
      if isProcessing inProcess then
        (blocks.take inProcessIdx ++
          [BlockModel.Finished inProcess
            (if responseType == "ScalarResponse" && showIT then ResponseOrOk.response response
             else ResponseOrOk.ok) cancelled] ++
          blocks.drop (inProcessIdx + 1) ++ [BlockModel.Active ""], [])
      else
        (blocks, ["invalid state: got a command completion event for a block that is not processing",
                  execUUID])
    | none =>
      if cancelled then
        let inProcessIdx := blocks.length - 1
        (blocks.take inProcessIdx ++
          [BlockModel.Cancelled (blocks.getD inProcessIdx (BlockModel.Active ""))] ++
          [BlockModel.Active ""], [])
      else
        (blocks, ["invalid state: got a command completion event, but never got command start event",
                  execUUID])

/-- Fault-injected onExecEnd, used to settle the exception-handling claim.
The two block constructions that build the replacement sequence are passed in
as possibly-throwing functions (`Except`): `mkFinished` stands for the
construction inside the found branch, which the source wraps in
`try { ... } catch (err) { console.error("error updating state", err) }`
(a caught exception leaves the updater returning undefined, hence no state
change); `mkCancelled` stands for the construction inside the bare
cancellation branch, which the source does not guard, so a thrown exception
propagates out of the handler (`Except.error`). -/
def onExecEndExc
    (mkFinished : BlockModel → ResponseOrOk → Bool → Except String BlockModel)
    (mkCancelled : BlockModel → Except String BlockModel)
    (enableWatchPane : Bool) (response : Response)
    (cancelled echo : Bool) (evaluatorAlwaysViewIn execAlwaysViewIn : Option String)
    (execUUID responseType : String)
    (blocks : List BlockModel) : Except String (List BlockModel × List String) :=
  if echo == false then Except.ok (blocks, [])
  else
    let showIT := showInTerminal enableWatchPane response evaluatorAlwaysViewIn execAlwaysViewIn
    match findIndex (matchesExec execUUID) blocks with
    | some inProcessIdx =>
      let inProcess := blocks.getD inProcessIdx (BlockModel.Active "")
      if isProcessing inProcess then
        match mkFinished inProcess
            (if responseType == "ScalarResponse" && showIT then ResponseOrOk.response response
             else ResponseOrOk.ok) cancelled with
        | Except.ok fb =>
          Except.ok (blocks.take inProcessIdx ++ [fb] ++
            blocks.drop (inProcessIdx + 1) ++ [BlockModel.Active ""], [])
        | Except.error e =>
          Except.ok (blocks, ["error updating state", e])
      else
        Except.ok (blocks,
          ["invalid state: got a command completion event for a block that is not processing",
           execUUID])
    | none =>
      if cancelled then
        let inProcessIdx := blocks.length - 1
        match mkCancelled (blocks.getD inProcessIdx (BlockModel.Active "")) with
        | Except.ok cb =>
          Except.ok (blocks.take inProcessIdx ++ [cb] ++ [BlockModel.Active ""], [])
        | Except.error e => Except.error e
      else
        Except.ok (blocks,
          ["invalid state: got a command completion event, but never got command start event",
           execUUID])

/-- The clear handler.  `activeInput` models
`this._activeBlock ? this._activeBlock.inputValue() : ""` (the in-progress
input text of the active block; `Block.inputValue` lives in the rendering
layer, modelled from the spec as the captured text; `none` when no active
block ref exists).  `onClearPresent` records whether `props.onClear` was
supplied; the second component reports whether the callback was invoked.
The whole block list is replaced by a single Active block carrying the
captured value. -/
def clear (onClearPresent : Bool) (activeInput : Option String)
    (_blocks : List BlockModel) : List BlockModel × Bool :=
  let capturedValue := match activeInput with
    | some v => v
    | none => ""
  ([BlockModel.Active capturedValue], onClearPresent)

/-- willRemoveBlock state updater:
`blocks.slice(0, idx).concat(blocks.slice(idx + 1))
        .concat(blocks.find(isActive) ? [] : [Active()])`.
Note that the `find` runs over `curState.blocks`, the sequence BEFORE the
removal. -/
def willRemoveBlock (idx : Nat) (blocks : List BlockModel) : List BlockModel :=
  blocks.take idx ++ blocks.drop (idx + 1) ++
    (match blocks.find? isActive with
     | some _ => []
     | none => [BlockModel.Active ""])

/-- One externally delivered event for a terminal tab: a command start, a
command completion, or a terminal clear.  The clear event carries the
in-progress input text of the active block as observed by the rendering
layer at clear time. -/
inductive Event where
  | start (command execUUID : String) (echo : Bool) : Event
  | complete (response : Response) (cancelled echo : Bool)
      (evaluatorAlwaysViewIn execAlwaysViewIn : Option String)
      (execUUID responseType : String) : Event
  | clear (activeInput : Option String) : Event

/-- Dispatch one event to its handler, projecting out the block list. -/
def step (enableWatchPane : Bool) (blocks : List BlockModel) : Event → List BlockModel
  | Event.start c u e => onExecStart c u e blocks
  | Event.complete r cx e ev ex u rt =>
      (onExecEnd enableWatchPane r cx e ev ex u rt blocks).1
  | Event.clear inp => (clear true inp blocks).1

/-- The block list after a fresh terminal (constructor state
`blocks: [Active()]`) has processed a list of events. -/
def run (enableWatchPane : Bool) (events : List Event) : List BlockModel :=
  events.foldl (step enableWatchPane) [BlockModel.Active ""]

/-- Number of Active blocks in a sequence. -/
def countActive (bs : List BlockModel) : Nat :=
  (bs.filter isActive).length

/-- Number of Processing blocks in a sequence. -/
def countProcessing (bs : List BlockModel) : Nat :=
  (bs.filter isProcessing).length

/-- The last block of the sequence satisfies `p` (false on the empty
sequence). -/
def lastIs (p : BlockModel → Bool) (bs : List BlockModel) : Bool :=
  match bs.getLast? with
  | some b => p b
  | none => false

/-- Invariant A of the spec, in its code-accurate form: either exactly one
block is Active, none is Processing, and the Active block is last; or no
block is Active, exactly one is Processing, and the Processing block is
last. -/
def invariantA (bs : List BlockModel) : Bool :=
  (countActive bs == 1 && countProcessing bs == 0 && lastIs isActive bs) ||
  (countActive bs == 0 && countProcessing bs == 1 && lastIs isProcessing bs)

/-! Helper lemmas. -/

theorem countActive_append (xs ys : List BlockModel) :
    countActive (xs ++ ys) = countActive xs + countActive ys := by
  simp [countActive, List.filter_append]

theorem countProcessing_append (xs ys : List BlockModel) :
    countProcessing (xs ++ ys) = countProcessing xs + countProcessing ys := by
  simp [countProcessing, List.filter_append]

theorem countActive_singleton (b : BlockModel) :
    countActive [b] = if isActive b then 1 else 0 := by
  simp only [countActive, List.filter]
  cases isActive b <;> simp

theorem countProcessing_singleton (b : BlockModel) :
    countProcessing [b] = if isProcessing b then 1 else 0 := by
  simp only [countProcessing, List.filter]
  cases isProcessing b <;> simp

theorem countActive_cons (b : BlockModel) (bs : List BlockModel) :
    countActive (b :: bs) = (if isActive b then 1 else 0) + countActive bs := by
  have h := countActive_append [b] bs
  rw [countActive_singleton] at h
  exact h

theorem countProcessing_cons (b : BlockModel) (bs : List BlockModel) :
    countProcessing (b :: bs) = (if isProcessing b then 1 else 0) + countProcessing bs := by
  have h := countProcessing_append [b] bs
  rw [countProcessing_singleton] at h
  exact h

theorem lastIs_concat (p : BlockModel → Bool) (xs : List BlockModel) (b : BlockModel) :
    lastIs p (xs ++ [b]) = p b := by
  simp [lastIs, List.getLast?_concat]

theorem one_le_countProcessing (bs : List BlockModel) (b : BlockModel)
    (hmem : b ∈ bs) (hp : isProcessing b = true) : 1 ≤ countProcessing bs := by
  have : b ∈ bs.filter isProcessing := List.mem_filter.mpr ⟨hmem, hp⟩
  exact List.length_pos_of_mem this

theorem isProcessing_of_matches (u : String) (b : BlockModel)
    (h : matchesExec u b = true) : isProcessing b = true := by
  simp only [matchesExec, Bool.and_eq_true] at h
  exact h.1

theorem getD_append_length (xs ys : List BlockModel) (b d : BlockModel) :
    (xs ++ b :: ys).getD xs.length d = b := by
  induction xs with
  | nil => rfl
  | cons x xs ih => simp only [List.cons_append, List.length_cons, List.getD_cons_succ]; exact ih

theorem drop_append_length_succ (xs ys : List BlockModel) (b : BlockModel) :
    (xs ++ b :: ys).drop (xs.length + 1) = ys := by
  induction xs with
  | nil => rfl
  | cons x xs ih => simp only [List.cons_append, List.length_cons, List.drop_succ_cons]; exact ih

theorem take_append_length (xs ys : List BlockModel) (b : BlockModel) :
    (xs ++ b :: ys).take xs.length = xs := by
  have := List.take_left xs (b :: ys)
  exact this

theorem findIndex_none_of_forall (p : BlockModel → Bool) (bs : List BlockModel)
    (h : ∀ b ∈ bs, p b = false) : findIndex p bs = none := by
  induction bs with
  | nil => rfl
  | cons x xs ih =>
    have hx : p x = false := h x (List.mem_cons_self x xs)
    have hxs : findIndex p xs = none := ih fun b hb => h b (List.mem_cons_of_mem x hb)
    simp [findIndex, hx, hxs]

theorem findIndex_some_exists (p : BlockModel → Bool) (bs : List BlockModel) (i : Nat)
    (h : findIndex p bs = some i) : ∃ b ∈ bs, p b = true := by
  induction bs generalizing i with
  | nil => simp [findIndex] at h
  | cons x xs ih =>
    by_cases hx : p x = true
    · exact ⟨x, List.mem_cons_self x xs, hx⟩
    · simp only [Bool.not_eq_true] at hx
      cases hfx : findIndex p xs with
      | none => simp [findIndex, hx, hfx] at h
      | some j =>
        obtain ⟨b, hb, hpb⟩ := ih j hfx
        exact ⟨b, List.mem_cons_of_mem x hb, hpb⟩

theorem findIndex_append_cons (p : BlockModel → Bool) (xs ys : List BlockModel)
    (c : BlockModel) (h : ∀ b ∈ xs, p b = false) (hc : p c = true) :
    findIndex p (xs ++ c :: ys) = some xs.length := by
  induction xs with
  | nil => simp [findIndex, hc]
  | cons x xs ih =>
    have hx : p x = false := h x (List.mem_cons_self x xs)
    have := ih fun b hb => h b (List.mem_cons_of_mem x hb)
    simp [findIndex, hx, this]

theorem findIndex_concat_of_forall (p : BlockModel → Bool) (xs : List BlockModel)
    (b : BlockModel) (h : ∀ x ∈ xs, p x = false) :
    findIndex p (xs ++ [b]) = if p b then some xs.length else none := by
  by_cases hb : p b = true
  · simp [hb, findIndex_append_cons p xs [] b h hb]
  · simp only [Bool.not_eq_true] at hb
    have : ∀ x ∈ xs ++ [b], p x = false := by
      intro x hx
      rcases List.mem_append.mp hx with hx | hx
      · exact h x hx
      · simp only [List.mem_singleton] at hx
        subst hx; exact hb
    simp [hb, findIndex_none_of_forall p _ this]

/-- Shape of onExecStart on a sequence with an explicit last block. -/
theorem onExecStart_concat (c u : String) (xs : List BlockModel) (b : BlockModel) :
    onExecStart c u true (xs ++ [b]) = xs ++ [BlockModel.Processing b c u] := by
  have hlen : (xs ++ [b]).length - 1 = xs.length := by simp
  simp only [onExecStart, hlen, take_append_length xs [] b, getD_append_length xs [] b]
  simp

/-- Shape of onExecEnd on a sequence holding a matching Processing block,
with no earlier match. -/
theorem onExecEnd_found_general (enableWatchPane : Bool) (response : Response)
    (cancelled : Bool) (evalV execV : Option String) (idB responseType : String)
    (xs ys : List BlockModel) (prevB : BlockModel) (cmdB : String)
    (h : ∀ x ∈ xs, matchesExec idB x = false) :
    onExecEnd enableWatchPane response cancelled true evalV execV idB responseType
        (xs ++ BlockModel.Processing prevB cmdB idB :: ys) =
      (xs ++ BlockModel.Finished (BlockModel.Processing prevB cmdB idB)
          (if responseType == "ScalarResponse" &&
              showInTerminal enableWatchPane response evalV execV
           then ResponseOrOk.response response else ResponseOrOk.ok) cancelled ::
        (ys ++ [BlockModel.Active ""]), []) := by
  have hc : matchesExec idB (BlockModel.Processing prevB cmdB idB) = true := by
    simp [matchesExec, isProcessing, execUUIDOf]
  have hfind := findIndex_append_cons (matchesExec idB) xs ys _ h hc
  simp only [onExecEnd, Bool.true_eq_false, if_false, hfind,
    getD_append_length xs ys _ (BlockModel.Active ""),
    take_append_length xs ys, drop_append_length_succ xs ys, isProcessing, if_true]
  simp

/-- Shape of onExecEnd in the bare-cancellation branch on a sequence with an
explicit last block, when no block matches the completion identifier. -/
theorem onExecEnd_cancel_concat (enableWatchPane : Bool) (response : Response)
    (evalV execV : Option String) (u responseType : String)
    (xs : List BlockModel) (b : BlockModel)
    (hfind : findIndex (matchesExec u) (xs ++ [b]) = none) :
    onExecEnd enableWatchPane response true true evalV execV u responseType (xs ++ [b]) =
      (xs ++ [BlockModel.Cancelled b, BlockModel.Active ""], []) := by
  have hlen : (xs ++ [b]).length - 1 = xs.length := by simp
  simp only [onExecEnd, Bool.true_eq_false, if_false, hfind, hlen,
    take_append_length xs [] b, getD_append_length xs [] b, if_true]
  simp

/-! Invariant machinery for the single-active property. -/

theorem invariantA_iff (bs : List BlockModel) : invariantA bs = true ↔
    (countActive bs = 1 ∧ countProcessing bs = 0 ∧ lastIs isActive bs = true) ∨
    (countActive bs = 0 ∧ countProcessing bs = 1 ∧ lastIs isProcessing bs = true) := by
  simp [invariantA, Bool.or_eq_true, Bool.and_eq_true, beq_iff_eq, and_assoc]

theorem ne_nil_of_lastIs (p : BlockModel → Bool) (bs : List BlockModel)
    (h : lastIs p bs = true) : bs ≠ [] := by
  intro hnil
  subst hnil
  simp [lastIs] at h

theorem invariantA_of_last_active (M : List BlockModel) (s : String)
    (hA : countActive M = 0) (hP : countProcessing M = 0) :
    invariantA (M ++ [BlockModel.Active s]) = true := by
  apply (invariantA_iff _).mpr
  left
  refine ⟨?_, ?_, ?_⟩
  · rw [countActive_append, countActive_singleton, hA]
    simp [isActive]
  · rw [countProcessing_append, countProcessing_singleton, hP]
    simp [isProcessing]
  · rw [lastIs_concat]
    rfl

theorem invariantA_of_last_processing (M : List BlockModel) (b : BlockModel)
    (c u : String) (hA : countActive M = 0) (hP : countProcessing M = 0) :
    invariantA (M ++ [BlockModel.Processing b c u]) = true := by
  apply (invariantA_iff _).mpr
  right
  refine ⟨?_, ?_, ?_⟩
  · rw [countActive_append, countActive_singleton, hA]
    simp [isActive]
  · rw [countProcessing_append, countProcessing_singleton, hP]
    simp [isProcessing]
  · rw [lastIs_concat]
    rfl

theorem invariantA_concat_counts (L : List BlockModel) (b : BlockModel)
    (h : invariantA (L ++ [b]) = true) :
    countActive L = 0 ∧ countProcessing L = 0 := by
  rcases (invariantA_iff _).mp h with ⟨h1, h2, h3⟩ | ⟨h1, h2, _⟩
  · rw [lastIs_concat] at h3
    rw [countActive_append, countActive_singleton] at h1
    simp only [h3, if_true] at h1
    rw [countProcessing_append] at h2
    omega
  · rw [countActive_append] at h1
    rw [countProcessing_append, countProcessing_singleton] at h2
    constructor
    · omega
    · by_cases hb : isProcessing b = true
      · rw [if_pos hb] at h2
        omega
      · simp only [hb, if_false] at h2
        -- with no processing contribution from b the last block cannot be
        -- Processing, contradicting the second disjunct
        rcases (invariantA_iff _).mp h with ⟨_, hc2, _⟩ | ⟨_, _, h3⟩
        · rw [countProcessing_append] at hc2
          omega
        · rw [lastIs_concat] at h3
          exact absurd h3 hb

/-- When the invariant holds, no block of the prefix L can match a
completion identifier (L has no Processing blocks). -/
theorem no_match_in_prefix (L : List BlockModel) (u : String)
    (hP : countProcessing L = 0) : ∀ x ∈ L, matchesExec u x = false := by
  intro x hx
  cases hmx : matchesExec u x with
  | false => rfl
  | true =>
    have := one_le_countProcessing L x hx (isProcessing_of_matches u x hmx)
    omega

theorem invariantA_step (cfg : Bool) (bs : List BlockModel) (ev : Event)
    (h : invariantA bs = true) : invariantA (step cfg bs ev) = true := by
  have hlast : bs ≠ [] := by
    rcases (invariantA_iff _).mp h with ⟨_, _, h3⟩ | ⟨_, _, h3⟩
    · exact ne_nil_of_lastIs _ _ h3
    · exact ne_nil_of_lastIs _ _ h3
  rcases List.eq_nil_or_concat bs with rfl | ⟨L, b, hb⟩
  · exact absurd rfl hlast
  rw [List.concat_eq_append] at hb
  subst hb
  obtain ⟨hA0, hP0⟩ := invariantA_concat_counts L b h
  cases ev with
  | start c u e =>
    cases e with
    | false => simpa [step, onExecStart] using h
    | true =>
      simp only [step, onExecStart_concat]
      exact invariantA_of_last_processing L b c u hA0 hP0
  | complete r cx e ev ex u rt =>
    cases e with
    | false => simpa [step, onExecEnd] using h
    | true =>
      cases hfind : findIndex (matchesExec u) (L ++ [b]) with
      | none =>
        cases cx with
        | false =>
          simpa [step, onExecEnd, hfind] using h
        | true =>
          simp only [step, onExecEnd_cancel_concat cfg r ev ex u rt L b hfind]
          have : L ++ [BlockModel.Cancelled b, BlockModel.Active ""] =
              (L ++ [BlockModel.Cancelled b]) ++ [BlockModel.Active ""] := by
            simp
          rw [this]
          apply invariantA_of_last_active
          · rw [countActive_append, countActive_singleton, hA0]
            simp [isActive]
          · rw [countProcessing_append, countProcessing_singleton, hP0]
            simp [isProcessing]
      | some i =>
        have hnoL : ∀ x ∈ L, matchesExec u x = false := no_match_in_prefix L u hP0
        have hcat := findIndex_concat_of_forall (matchesExec u) L b hnoL
        rw [hfind] at hcat
        by_cases hmb : matchesExec u b = true
        · have hpb : isProcessing b = true := isProcessing_of_matches u b hmb
          cases b with
          | Processing prevB cmdB idB =>
            have hid : idB = u := by
              simp only [matchesExec, execUUIDOf, Bool.and_eq_true, beq_iff_eq,
                Option.some.injEq] at hmb
              exact hmb.2
            subst hid
            simp only [step]
            rw [show L ++ [BlockModel.Processing prevB cmdB idB] =
              L ++ BlockModel.Processing prevB cmdB idB :: [] by simp]
            rw [onExecEnd_found_general cfg r cx ev ex idB rt L [] prevB cmdB hnoL]
            simp only
            have : L ++ BlockModel.Finished (BlockModel.Processing prevB cmdB idB)
                (if rt == "ScalarResponse" && showInTerminal cfg r ev ex
                 then ResponseOrOk.response r else ResponseOrOk.ok) cx ::
                ([] ++ [BlockModel.Active ""]) =
                (L ++ [BlockModel.Finished (BlockModel.Processing prevB cmdB idB)
                  (if rt == "ScalarResponse" && showInTerminal cfg r ev ex
                   then ResponseOrOk.response r else ResponseOrOk.ok) cx]) ++
                  [BlockModel.Active ""] := by
              simp
            rw [this]
            apply invariantA_of_last_active
            · rw [countActive_append, countActive_singleton, hA0]
              simp [isActive]
            · rw [countProcessing_append, countProcessing_singleton, hP0]
              simp [isProcessing]
          | Active s => simp [isProcessing] at hpb
          | Finished p ro c => simp [isProcessing] at hpb
          | Cancelled p => simp [isProcessing] at hpb
        · simp only [Bool.not_eq_true] at hmb
          rw [hmb] at hcat
          simp at hcat
  | clear inp =>
    simp only [step, clear]
    rw [show [BlockModel.Active (match inp with | some v => v | none => "")] =
      [] ++ [BlockModel.Active (match inp with | some v => v | none => "")] by simp]
    apply invariantA_of_last_active <;> rfl

theorem foldl_step_invariantA (cfg : Bool) (es : List Event) :
    ∀ bs : List BlockModel, invariantA bs = true →
      invariantA (es.foldl (step cfg) bs) = true := by
  induction es with
  | nil => intro bs h; exact h
  | cons e es ih =>
    intro bs h
    exact ih (step cfg bs e) (invariantA_step cfg bs e h)

/-! Claims. -/

/-- C1, counterexample to the claim as stated: removing the only Active
block from the one-element sequence yields the empty sequence, with no new
Active block appended, because the source checks the PRE-removal sequence
for an Active block. -/
theorem willRemoveBlock_remove_only_active_counterexample :
    willRemoveBlock 0 [BlockModel.Active ""] = [] ∧
    countActive (willRemoveBlock 0 [BlockModel.Active ""]) = 0 := by
  constructor <;> rfl

/-- C1 (amended): willRemoveBlock removes the block at the given index and
appends a new Active block exactly when the PRE-removal sequence contains no
Active block.  In particular removing a non-active historical block leaves
the single Active block unchanged, while removing the only Active block
yields a sequence with no Active block. -/
theorem willRemoveBlock_pre_removal_check (xs ys : List BlockModel) (b : BlockModel) :
    willRemoveBlock xs.length (xs ++ b :: ys) =
      xs ++ ys ++
        (if (xs ++ b :: ys).any isActive then [] else [BlockModel.Active ""]) := by
  unfold willRemoveBlock
  rw [take_append_length xs ys b, drop_append_length_succ xs ys b]
  cases hf : (xs ++ b :: ys).find? isActive with
  | some c =>
    have hmem := List.mem_of_find?_eq_some hf
    have hp := List.find?_some hf
    have hany : (xs ++ b :: ys).any isActive = true :=
      List.any_eq_true.mpr ⟨c, hmem, hp⟩
    simp [hany]
  | none =>
    have hall := List.find?_eq_none.mp hf
    have hany : (xs ++ b :: ys).any isActive = false := by
      cases hx : (xs ++ b :: ys).any isActive with
      | false => rfl
      | true =>
        obtain ⟨c, hmem, hp⟩ := List.any_eq_true.mp hx
        exact absurd hp (by simpa using hall c hmem)
    simp [hany]

/-- C2, counterexample to the claim as stated: after the start handler has
run to completion on a fresh terminal, the sequence holds a single
Processing block and no Active block at all; the new Active block only
appears when the completion event is handled. -/
theorem run_start_leaves_no_active_counterexample :
    countActive (run true [Event.start "ls" "A" true]) = 0 := by
  rfl

/-- C2 (amended): for every sequence of start, complete and clear events
applied to a fresh terminal, after each handler has run to completion either
exactly one block is Active, it is the last block, and no block is
Processing, or no block is Active and the last block is the unique
Processing block. -/
theorem run_invariantA (enableWatchPane : Bool) (events : List Event) :
    invariantA (run enableWatchPane events) = true := by
  apply foldl_step_invariantA
  rfl

/-- C3: a completion event carrying identifier idB with echo not false
transitions exactly the Processing block whose execution identifier is idB
to Finished, leaves every block before and after it unchanged (in
particular any other Processing block), and appends a fresh Active block at
the end; matching is by identifier, never by position (the matching block
sits at an arbitrary position between xs and ys). -/
theorem onExecEnd_matches_by_execUUID
    (enableWatchPane : Bool) (response : Response) (cancelled : Bool)
    (evalV execV : Option String) (idB responseType : String)
    (xs ys : List BlockModel) (prevB : BlockModel) (cmdB : String)
    (h : ∀ x ∈ xs, matchesExec idB x = false) :
    (onExecEnd enableWatchPane response cancelled true evalV execV idB responseType
        (xs ++ BlockModel.Processing prevB cmdB idB :: ys)).1 =
      xs ++ BlockModel.Finished (BlockModel.Processing prevB cmdB idB)
          (if responseType == "ScalarResponse" &&
              showInTerminal enableWatchPane response evalV execV
           then ResponseOrOk.response response else ResponseOrOk.ok) cancelled ::
        (ys ++ [BlockModel.Active ""]) := by
  rw [onExecEnd_found_general enableWatchPane response cancelled evalV execV idB
    responseType xs ys prevB cmdB h]

/-- C3 witness: two concurrently Processing blocks with identifiers A and B;
completing B finishes exactly the B block and appends a fresh Active
block. -/
theorem onExecEnd_matches_by_execUUID_witness :
    (∀ x ∈ [BlockModel.Processing (BlockModel.Active "") "cmdA" "A"],
        matchesExec "B" x = false) ∧
    (onExecEnd false ⟨false, 0⟩ false true none none "B" "ScalarResponse"
        ([BlockModel.Processing (BlockModel.Active "") "cmdA" "A"] ++
          BlockModel.Processing (BlockModel.Active "") "cmdB" "B" :: [])).1 =
      [BlockModel.Processing (BlockModel.Active "") "cmdA" "A"] ++
        BlockModel.Finished (BlockModel.Processing (BlockModel.Active "") "cmdB" "B")
          (if "ScalarResponse" == "ScalarResponse" &&
              showInTerminal false ⟨false, 0⟩ none none
           then ResponseOrOk.response ⟨false, 0⟩ else ResponseOrOk.ok) false ::
        ([] ++ [BlockModel.Active ""]) :=
  ⟨by decide,
   onExecEnd_matches_by_execUUID false ⟨false, 0⟩ false none none "B" "ScalarResponse"
     [BlockModel.Processing (BlockModel.Active "") "cmdA" "A"] []
     (BlockModel.Active "") "cmdB" (by decide)⟩

/-- C4: a completion event whose identifier matches no Processing block,
with cancelled false and echo not false, leaves the block sequence
unchanged and only emits a diagnostic. -/
theorem onExecEnd_unmatched_not_cancelled_inert
    (enableWatchPane : Bool) (response : Response) (evalV execV : Option String)
    (u responseType : String) (blocks : List BlockModel)
    (h : ∀ x ∈ blocks, matchesExec u x = false) :
    onExecEnd enableWatchPane response false true evalV execV u responseType blocks =
      (blocks,
       ["invalid state: got a command completion event, but never got command start event",
        u]) := by
  have hfind := findIndex_none_of_forall (matchesExec u) blocks h
  simp [onExecEnd, hfind]

/-- C4 witness: an unmatched, non-cancelled completion on a sequence with a
Finished and an Active block changes nothing. -/
theorem onExecEnd_unmatched_not_cancelled_inert_witness :
    (∀ x ∈ [BlockModel.Finished (BlockModel.Active "") ResponseOrOk.ok false,
            BlockModel.Active ""], matchesExec "Z" x = false) ∧
    onExecEnd true ⟨true, 3⟩ false true none none "Z" "ScalarResponse"
        [BlockModel.Finished (BlockModel.Active "") ResponseOrOk.ok false,
         BlockModel.Active ""] =
      ([BlockModel.Finished (BlockModel.Active "") ResponseOrOk.ok false,
        BlockModel.Active ""],
       ["invalid state: got a command completion event, but never got command start event",
        "Z"]) :=
  ⟨by decide,
   onExecEnd_unmatched_not_cancelled_inert true ⟨true, 3⟩ none none "Z" "ScalarResponse"
     [BlockModel.Finished (BlockModel.Active "") ResponseOrOk.ok false,
      BlockModel.Active ""] (by decide)⟩

/-- C5: a completion event whose identifier matches no Processing block,
with cancelled true and echo not false, replaces the last block with
Cancelled of that block, preserves every earlier block, and appends a fresh
Active block. -/
theorem onExecEnd_unmatched_cancelled_replaces_last
    (enableWatchPane : Bool) (response : Response) (evalV execV : Option String)
    (u responseType : String) (xs : List BlockModel) (b : BlockModel)
    (h : ∀ x ∈ xs ++ [b], matchesExec u x = false) :
    onExecEnd enableWatchPane response true true evalV execV u responseType (xs ++ [b]) =
      (xs ++ [BlockModel.Cancelled b, BlockModel.Active ""], []) :=
  onExecEnd_cancel_concat enableWatchPane response evalV execV u responseType xs b
    (findIndex_none_of_forall (matchesExec u) (xs ++ [b]) h)

/-- C5 witness: ctrl-C with no command in flight cancels the lone Active
block and appends a fresh Active block. -/
theorem onExecEnd_unmatched_cancelled_replaces_last_witness :
    (∀ x ∈ ([] : List BlockModel) ++ [BlockModel.Active "ls"],
        matchesExec "Z" x = false) ∧
    onExecEnd false ⟨false, 1⟩ true true none none "Z" "ScalarResponse"
        (([] : List BlockModel) ++ [BlockModel.Active "ls"]) =
      (([] : List BlockModel) ++
        [BlockModel.Cancelled (BlockModel.Active "ls"), BlockModel.Active ""], []) :=
  ⟨by decide,
   onExecEnd_unmatched_cancelled_replaces_last false ⟨false, 1⟩ none none "Z"
     "ScalarResponse" [] (BlockModel.Active "ls") (by decide)⟩

/-- C6, counterexample to the claim as stated: an exception raised while
constructing the replacement sequence in the bare-cancellation branch is
NOT caught (the source wraps only the matched-Processing branch in
try/catch) and propagates out of the handler. -/
theorem onExecEndExc_cancel_branch_propagates_counterexample :
    onExecEndExc (fun p r c => Except.ok (BlockModel.Finished p r c))
        (fun _ => Except.error "boom")
        false ⟨false, 0⟩ true true none none "B" "ScalarResponse"
        [BlockModel.Active ""] =
      Except.error "boom" := by
  rfl

/-- C6 (amended): an exception raised while constructing the replacement
sequence in the matched-Processing branch of onExecEnd is caught and
reported diagnostically, and the block sequence is left unchanged, never
partially applied; the bare-cancellation branch has no such guard. -/
theorem onExecEndExc_found_branch_catches
    (e : String) (mkCancelled : BlockModel → Except String BlockModel)
    (enableWatchPane : Bool) (response : Response) (cancelled : Bool)
    (evalV execV : Option String) (idB responseType : String)
    (xs ys : List BlockModel) (prevB : BlockModel) (cmdB : String)
    (h : ∀ x ∈ xs, matchesExec idB x = false) :
    onExecEndExc (fun _ _ _ => Except.error e) mkCancelled enableWatchPane response
        cancelled true evalV execV idB responseType
        (xs ++ BlockModel.Processing prevB cmdB idB :: ys) =
      Except.ok (xs ++ BlockModel.Processing prevB cmdB idB :: ys,
        ["error updating state", e]) := by
  have hc : matchesExec idB (BlockModel.Processing prevB cmdB idB) = true := by
    simp [matchesExec, isProcessing, execUUIDOf]
  have hfind := findIndex_append_cons (matchesExec idB) xs ys _ h hc
  simp only [onExecEndExc, Bool.true_eq_false, if_false, hfind,
    getD_append_length xs ys _ (BlockModel.Active ""), isProcessing, if_true]
  simp

/-- C6 witness: a throwing construction in the matched branch is caught and
leaves the sequence unchanged. -/
theorem onExecEndExc_found_branch_catches_witness :
    (∀ x ∈ ([] : List BlockModel), matchesExec "A" x = false) ∧
    onExecEndExc (fun _ _ _ => Except.error "boom")
        (fun b => Except.ok (BlockModel.Cancelled b))
        true ⟨true, 2⟩ false true none none "A" "ScalarResponse"
        (([] : List BlockModel) ++
          BlockModel.Processing (BlockModel.Active "") "ls" "A" :: []) =
      Except.ok (([] : List BlockModel) ++
        BlockModel.Processing (BlockModel.Active "") "ls" "A" :: [],
        ["error updating state", "boom"]) :=
  ⟨by decide,
   onExecEndExc_found_branch_catches "boom" (fun b => Except.ok (BlockModel.Cancelled b))
     true ⟨true, 2⟩ false none none "A" "ScalarResponse" [] []
     (BlockModel.Active "") "ls" (by decide)⟩

/-- C7: clear replaces the whole sequence with a single Active block whose
captured input equals the in-progress input of the active block (empty when
there is none), and invokes the onClear callback exactly when one is
provided; in particular clearing with "foo" typed into the Active block
yields a single Active block capturing "foo". -/
theorem clear_single_active_with_captured_input
    (onClearPresent : Bool) (activeInput : Option String) (blocks : List BlockModel) :
    clear onClearPresent activeInput blocks =
      ([BlockModel.Active (activeInput.getD "")], onClearPresent) ∧
    (clear true (some "foo") blocks).1 = [BlockModel.Active "foo"] := by
  constructor
  · cases activeInput <;> rfl
  · rfl

/-- C8: start and completion events with echo false are no-ops: the block
sequence is unchanged and no diagnostic is emitted. -/
theorem echo_false_handlers_noop
    (command u : String) (enableWatchPane : Bool) (response : Response)
    (cancelled : Bool) (evalV execV : Option String) (responseType : String)
    (blocks : List BlockModel) :
    onExecStart command u false blocks = blocks ∧
    onExecEnd enableWatchPane response cancelled false evalV execV u responseType
        blocks = (blocks, []) :=
  ⟨rfl, rfl⟩

/-- C9: the Finished block constructed by onExecEnd stores the structured
response exactly when the response type tag is "ScalarResponse" AND the
show-in-terminal policy holds, which unfolds to: the watch pane feature is
disabled, or the response is not watchable, or a per-call override
(evaluator level or exec level) forces terminal viewing; otherwise the
plain ok marker (the boolean true of the source) is stored. -/
theorem onExecEnd_finished_payload_policy
    (enableWatchPane : Bool) (response : Response) (cancelled : Bool)
    (evalV execV : Option String) (idB responseType : String)
    (xs ys : List BlockModel) (prevB : BlockModel) (cmdB : String)
    (h : ∀ x ∈ xs, matchesExec idB x = false) :
    ((onExecEnd enableWatchPane response cancelled true evalV execV idB responseType
        (xs ++ BlockModel.Processing prevB cmdB idB :: ys)).1.getD xs.length
        (BlockModel.Active "") =
      BlockModel.Finished (BlockModel.Processing prevB cmdB idB)
        (if responseType == "ScalarResponse" &&
            showInTerminal enableWatchPane response evalV execV
         then ResponseOrOk.response response else ResponseOrOk.ok) cancelled) ∧
    ((responseType == "ScalarResponse" &&
        showInTerminal enableWatchPane response evalV execV) = true ↔
      (responseType = "ScalarResponse" ∧
        (enableWatchPane = false ∨ response.watchable = false ∨
          evalV = some "Terminal" ∨ execV = some "Terminal"))) := by
  constructor
  · rw [onExecEnd_found_general enableWatchPane response cancelled evalV execV idB
      responseType xs ys prevB cmdB h]
    exact getD_append_length xs _ _ _
  · cases enableWatchPane <;> cases hw : response.watchable <;>
      simp [showInTerminal, isWatchable, hw, Bool.and_eq_true, beq_iff_eq]

/-- C9 witness: a watchable response under an enabled watch pane with an
evaluator-level Terminal override is stored in the Finished block. -/
theorem onExecEnd_finished_payload_policy_witness :
    (∀ x ∈ ([] : List BlockModel), matchesExec "A" x = false) ∧
    ((onExecEnd true ⟨true, 5⟩ false true (some "Terminal") none "A" "ScalarResponse"
        (([] : List BlockModel) ++
          BlockModel.Processing (BlockModel.Active "") "k get pods" "A" :: [])).1.getD 0
        (BlockModel.Active "") =
      BlockModel.Finished (BlockModel.Processing (BlockModel.Active "") "k get pods" "A")
        (if "ScalarResponse" == "ScalarResponse" &&
            showInTerminal true ⟨true, 5⟩ (some "Terminal") none
         then ResponseOrOk.response ⟨true, 5⟩ else ResponseOrOk.ok) false) ∧
    (("ScalarResponse" == "ScalarResponse" &&
        showInTerminal true ⟨true, 5⟩ (some "Terminal") none) = true ↔
      ("ScalarResponse" = "ScalarResponse" ∧
        (true = false ∨ Response.watchable ⟨true, 5⟩ = false ∨
          (some "Terminal" : Option String) = some "Terminal" ∨
          (none : Option String) = some "Terminal"))) :=
  ⟨by decide,
   onExecEnd_finished_payload_policy true ⟨true, 5⟩ false (some "Terminal") none "A"
     "ScalarResponse" [] [] (BlockModel.Active "") "k get pods" (by decide)⟩

/-- C10: on a non-empty sequence, a start event with echo not false replaces
the last block, whatever its state, by Processing of that block with the
given command and identifier, keeps the length and all earlier blocks
unchanged; a second echoing start event before any completion overwrites
the first Processing block in place, burying its command and identifier in
the previous-block field. -/
theorem onExecStart_replaces_last_block
    (xs : List BlockModel) (b : BlockModel) (c1 u1 c2 u2 : String) :
    onExecStart c1 u1 true (xs ++ [b]) = xs ++ [BlockModel.Processing b c1 u1] ∧
    (onExecStart c1 u1 true (xs ++ [b])).length = (xs ++ [b]).length ∧
    onExecStart c2 u2 true (onExecStart c1 u1 true (xs ++ [b])) =
      xs ++ [BlockModel.Processing (BlockModel.Processing b c1 u1) c2 u2] := by
  refine ⟨onExecStart_concat c1 u1 xs b, ?_, ?_⟩
  · rw [onExecStart_concat]
    simp
  · rw [onExecStart_concat, onExecStart_concat]

end Kui
